import Mathlib

/-!
Verification of the madshus-products collection-and-normalization pipeline.

The definitions below are a shallow embedding of the Python sources:
  - src/madshus/collectors/product_collector.py (ProductCollector)
  - src/madshus/utils/graphql.py               (GraphQLClient.execute)

Python values flowing through the pipeline are modelled by the `Json`
type; Python `dict.get`, truthiness, iteration and the exceptions the
code can raise (`TypeError`, `AttributeError`, pydantic validation
errors, transport failures, `GraphQLError`) are modelled explicitly.
The SQLAlchemy session is modelled by a pair of database states: the
committed state and the state visible inside the open transaction
(`pending`).  `commit` publishes `pending`; the source never calls
`rollback`, and neither does the model.
-/

deriving instance DecidableEq for Except

namespace Madshus

/-! ## JSON values (decoded API payloads) -/

mutual

inductive Json where
  | null : Json
  | bool (b : Bool) : Json
  | num (n : Int) : Json
  | str (s : String) : Json
  | arr (xs : JsonList) : Json
  | obj (kvs : JsonObj) : Json
deriving DecidableEq

inductive JsonList where
  | nil : JsonList
  | cons (hd : Json) (tl : JsonList) : JsonList
deriving DecidableEq

inductive JsonObj where
  | nil : JsonObj
  | cons (k : String) (v : Json) (tl : JsonObj) : JsonObj
deriving DecidableEq

end

def JsonList.toList : JsonList → List Json
  | .nil => []
  | .cons h t => h :: t.toList

def JsonList.ofList : List Json → JsonList
  | [] => .nil
  | h :: t => .cons h (ofList t)

def JsonObj.toList : JsonObj → List (String × Json)
  | .nil => []
  | .cons k v t => (k, v) :: t.toList

def JsonObj.ofList : List (String × Json) → JsonObj
  | [] => .nil
  | (k, v) :: t => .cons k v (ofList t)

/-- Array literal helper. -/
def Json.arrL (xs : List Json) : Json := .arr (JsonList.ofList xs)

/-- Object literal helper. -/
def Json.objL (kvs : List (String × Json)) : Json := .obj (JsonObj.ofList kvs)

/-- First binding of a key in an object, Python dict lookup. -/
def JsonObj.lookup : JsonObj → String → Option Json
  | .nil, _ => none
  | .cons k v t, key => if k = key then some v else t.lookup key

/-- Python truthiness (`bool(x)`) of a decoded JSON value. -/
def truthy : Json → Bool
  | .null => false
  | .bool b => b
  | .num n => decide (n ≠ 0)
  | .str s => decide (s ≠ "")
  | .arr .nil => false
  | .arr (.cons _ _) => true
  | .obj .nil => false
  | .obj (.cons _ _ _) => true

/-! ## Python exceptions that the pipeline can raise -/

inductive PyErr where
  /-- TypeError, e.g. iterating a non-iterable. -/
  | typeError : PyErr
  /-- AttributeError, e.g. calling `.get` / `.items` on a non-dict. -/
  | attributeError : PyErr
  /-- KeyError from indexing a dict with a missing key. -/
  | keyError : PyErr
  /-- pydantic ValidationError from a schema constructor. -/
  | validationError : PyErr
  /-- requests.exceptions.RequestException: network / HTTP failure. -/
  | transport : PyErr
  /-- GraphQLError carrying the structured error list of the response. -/
  | graphql (errors : Json) : PyErr
deriving DecidableEq

/-- Python `value.get(key, dflt)`: dict lookup with default, raising
AttributeError when `value` is not a dict. -/
def jget (v : Json) (key : String) (dflt : Json) : Except PyErr Json :=
  match v with
  | .obj kvs => .ok ((kvs.lookup key).getD dflt)
  | _ => .error .attributeError

/-- Python `for x in v`: lists yield their elements, dicts yield their
keys, strings yield their characters, everything else raises TypeError. -/
def pyIter : Json → Except PyErr (List Json)
  | .arr xs => .ok xs.toList
  | .obj kvs => .ok (kvs.toList.map (fun kv => Json.str kv.1))
  | .str s => .ok (s.data.map (fun c => Json.str (String.mk [c])))
  | _ => .error .typeError

/-! ## `ProductCollector._clean_html`

The source applies `re.sub("<.*?>", "", html)` (note: `.` does not match
a newline), then `re.sub(r"\s+", " ", text)`, then `str.strip()`. -/

/-- The code points CPython's `Py_UNICODE_ISSPACE` accepts: the ASCII
whitespace `\t \n \v \f \r` and space, the separators U+001C..U+001F,
NEL U+0085, NBSP U+00A0, OGHAM U+1680, the U+2000..U+200A spaces, LINE
and PARAGRAPH SEPARATOR U+2028/U+2029, U+202F, U+205F and U+3000. -/
def pyWhitespaceCodes : List Nat :=
  [0x09, 0x0a, 0x0b, 0x0c, 0x0d, 0x1c, 0x1d, 0x1e, 0x1f, 0x20, 0x85, 0xa0,
   0x1680, 0x2000, 0x2001, 0x2002, 0x2003, 0x2004, 0x2005, 0x2006, 0x2007,
   0x2008, 0x2009, 0x200a, 0x2028, 0x2029, 0x202f, 0x205f, 0x3000]

/-- Python 3 whitespace: `str` regexes interpret `\s` via
`Py_UNICODE_ISSPACE` and `str.strip()` strips exactly the same
Unicode-aware set, so one predicate serves both stages. -/
def isPySpace (c : Char) : Bool := pyWhitespaceCodes.contains c.toNat

/-- Scan for the closing `>` of a tag opened just before `l`.  The regex
`<.*?>` is non-greedy and `.` excludes newlines, so the match ends at the
first `>` reached without crossing a newline; otherwise there is no match. -/
def dropTag : List Char → Option (List Char)
  | [] => none
  | c :: rest => if c = '>' then some rest else if c = '\n' then none else dropTag rest

theorem dropTag_length {l l' : List Char} (h : dropTag l = some l') :
    l'.length < l.length := by
  induction l with
  | nil => simp [dropTag] at h
  | cons c rest ih =>
    simp only [dropTag] at h
    split at h
    · cases h
      simp
    · split at h
      · cases h
      · exact Nat.lt_trans (ih h) (by simp)

/-- Model of `re.sub("<.*?>", "", ·)`: left-to-right scan, removing each
shortest `<...>` span that does not contain a newline.  The scan is
driven by a fuel argument so that it reduces inside the kernel; fuel of
at least the input length never runs out (`stripTagsF_congr`), and
`stripTags` supplies exactly the input length. -/
def stripTagsF : Nat → List Char → List Char
  | 0, l => l
  | _ + 1, [] => []
  | fuel + 1, c :: rest =>
    if c = '<' then
      match dropTag rest with
      | some rest2 => stripTagsF fuel rest2
      | none => c :: stripTagsF fuel rest
    else
      c :: stripTagsF fuel rest

def stripTags (l : List Char) : List Char := stripTagsF l.length l

/-- Model of `re.sub(r"\s+", " ", ·)`: every maximal run of whitespace
becomes a single space. -/
def collapseWs : List Char → List Char
  | [] => []
  | [c] => if isPySpace c then [' '] else [c]
  | c :: d :: rest =>
    if isPySpace c then
      if isPySpace d then collapseWs (d :: rest)
      else ' ' :: collapseWs (d :: rest)
    else c :: collapseWs (d :: rest)

/-- Drop leading Python whitespace. -/
def trimLeft (l : List Char) : List Char := l.dropWhile (fun c => isPySpace c)

/-- Model of `str.strip()`. -/
def pyStrip (l : List Char) : List Char := trimLeft (trimLeft l.reverse).reverse

/-- The three regex stages of `_clean_html` on an actual string. -/
def cleanStr (s : String) : String := String.mk (pyStrip (collapseWs (stripTags s.data)))

/-- `ProductCollector._clean_html`: falsy input (None, "", ...) yields "",
a string is cleaned, any other truthy value raises TypeError inside `re.sub`. -/
def cleanHtml (v : Json) : Except PyErr String :=
  if truthy v then
    match v with
    | .str s => .ok (cleanStr s)
    | _ => .error .typeError
  else .ok ""

/-! ## pydantic schema types (madshus/schemas/product.py)

Constructing a schema validates the field types; pydantic does not
coerce between `int`/`bool` and `str`, so a wrong type raises a
ValidationError. -/

inductive SpecValue where
  | vNone : SpecValue
  | vStr (s : String) : SpecValue
  | vList (xs : List String) : SpecValue
deriving DecidableEq

structure SpecSchema where
  spec_id : String
  title : String
  value : SpecValue
deriving DecidableEq

structure TechSchema where
  title : String
  content : String
deriving DecidableEq

structure FeatureSchema where
  group_title : Option String
  content : String
deriving DecidableEq

/-- Validate a required `str` field. -/
def asStr : Json → Except PyErr String
  | .str s => .ok s
  | _ => .error .validationError

/-- Validate an `Optional[str]` field. -/
def asOptStr : Json → Except PyErr (Option String)
  | .null => .ok none
  | .str s => .ok (some s)
  | _ => .error .validationError

def strListOfJson : List Json → Except PyErr (List String)
  | [] => .ok []
  | .str s :: rest => do
    let t ← strListOfJson rest
    pure (s :: t)
  | _ :: rest => .error .validationError

/-- Validate an `Optional[Union[str, List[str]]]` field. -/
def specValueOfJson : Json → Except PyErr SpecValue
  | .null => .ok .vNone
  | .str s => .ok (.vStr s)
  | .arr xs => do
    let t ← strListOfJson xs.toList
    pure (.vList t)
  | _ => .error .validationError

/-! ## Field extraction (`ProductCollector._extract_*`) -/

/-- Loop body of `_extract_specs`: a spec is kept only when both its id
and title are truthy; the kept entry is then validated by the schema. -/
def specItems : List Json → Except PyErr (List SpecSchema)
  | [] => .ok []
  | it :: rest => do
    let sid ← jget it "id" (.str "")
    let ttl ← jget it "title" (.str "")
    let v ← jget it "value" (.str "")
    if truthy sid && truthy ttl then
      let sids ← asStr sid
      let ttls ← asStr ttl
      let sv ← specValueOfJson v
      let rs ← specItems rest
      pure (⟨sids, ttls, sv⟩ :: rs)
    else
      specItems rest

/-- `ProductCollector._extract_specs`. -/
def extractSpecs (data : Json) : Except PyErr (List SpecSchema) := do
  let ups ← jget data "updated_product_specs" (Json.arrL [])
  let items ← pyIter ups
  specItems items

/-- `ProductCollector._extract_prices`: copies the `prices` mapping
verbatim; calling `.items()` on a non-dict raises AttributeError. -/
def extractPrices (data : Json) : Except PyErr (List (String × Json)) := do
  let pd ← jget data "prices" (Json.objL [])
  match pd with
  | .obj kvs => pure kvs.toList
  | _ => .error .attributeError

/-- Shared per-entry logic of `_extract_technologies` (identical in the
single-mapping and the list branch): clean the content, keep the entry
only when the title is truthy. -/
def techItem (t : Json) : Except PyErr (List TechSchema) := do
  let ttl ← jget t "title" (.str "")
  let craw ← jget t "content" (.str "")
  let c ← cleanHtml craw
  if truthy ttl then
    let ttls ← asStr ttl
    pure [⟨ttls, c⟩]
  else
    pure []

def techItems : List Json → Except PyErr (List TechSchema)
  | [] => .ok []
  | t :: rest => do
    let r ← techItem t
    let rs ← techItems rest
    pure (r ++ rs)

/-- `ProductCollector._extract_technologies`: the `technology` field may
be a list or a single mapping; any other shape yields no rows. -/
def extractTechnologies (data : Json) : Except PyErr (List TechSchema) := do
  let details ← jget data "details" (Json.objL [])
  let tdata ← jget details "technology" (Json.arrL [])
  match tdata with
  | .arr xs => techItems xs.toList
  | .obj _ => techItem tdata
  | _ => pure []

/-- Loop body over one group's items in `_extract_features`: an item is
kept when its content is truthy; the content is stored as-is (the source
does not pass it through `_clean_html`). -/
def featItems (gt : Json) : List Json → Except PyErr (List FeatureSchema)
  | [] => .ok []
  | it :: rest => do
    let c ← jget it "content" (.str "")
    if truthy c then
      let gts ← asOptStr gt
      let cs ← asStr c
      let rs ← featItems gt rest
      pure (⟨gts, cs⟩ :: rs)
    else
      featItems gt rest

def featGroups : List Json → Except PyErr (List FeatureSchema)
  | [] => .ok []
  | g :: rest => do
    let gt ← jget g "group_title" (.str "")
    let grp ← jget g "group" (Json.arrL [])
    let items ← pyIter grp
    let rs1 ← featItems gt items
    let rs2 ← featGroups rest
    pure (rs1 ++ rs2)

/-- `ProductCollector._extract_features`. -/
def extractFeatures (data : Json) : Except PyErr (List FeatureSchema) := do
  let details ← jget data "details" (Json.objL [])
  let fd ← jget details "feature_details" (Json.arrL [])
  let gs ← pyIter fd
  featGroups gs

/-! ## Database model (madshus/models/product.py over a SQLAlchemy session)

`pending` is the state visible inside the session's open transaction:
`db.add`, bulk deletes and ORM attribute assignments land there, and
`db.commit()` publishes it to `committed`.  The source never calls
`rollback`, so neither does the model. -/

structure ProductRow where
  uid : Json
  title : Json
  display_title : Json
  url : Json
  description : Json
  tagline : Json
deriving DecidableEq

structure SpecRow where
  product_uid : Json
  spec_id : String
  title : String
  value : Option String
deriving DecidableEq

structure PriceRow where
  product_uid : Json
  region : String
  price : Json
deriving DecidableEq

structure TechRow where
  product_uid : Json
  title : String
  content : String
deriving DecidableEq

structure FeatRow where
  product_uid : Json
  group_title : Option String
  content : String
deriving DecidableEq

structure DBState where
  products : List ProductRow
  specs : List SpecRow
  prices : List PriceRow
  techs : List TechRow
  feats : List FeatRow
deriving DecidableEq

structure Sess where
  committed : DBState
  pending : DBState
deriving DecidableEq

/-- `db.commit()`. -/
def Sess.commit (s : Sess) : Sess := { s with committed := s.pending }

def DBState.addProduct (db : DBState) (r : ProductRow) : DBState :=
  { db with products := db.products ++ [r] }

def DBState.updProducts (db : DBState) (uid : Json) (f : ProductRow → ProductRow) : DBState :=
  { db with products := db.products.map (fun r => if r.uid = uid then f r else r) }

def DBState.delSpecs (db : DBState) (uid : Json) : DBState :=
  { db with specs := db.specs.filter (fun r => r.product_uid ≠ uid) }

def DBState.delPrices (db : DBState) (uid : Json) : DBState :=
  { db with prices := db.prices.filter (fun r => r.product_uid ≠ uid) }

def DBState.delTechs (db : DBState) (uid : Json) : DBState :=
  { db with techs := db.techs.filter (fun r => r.product_uid ≠ uid) }

def DBState.delFeats (db : DBState) (uid : Json) : DBState :=
  { db with feats := db.feats.filter (fun r => r.product_uid ≠ uid) }

/-- The write-time serialization of a spec value in `_create_product` and
`_update_product`: a string is kept as-is, a non-empty list is
comma-joined, anything falsy becomes NULL. -/
def serializeSpecValue : SpecValue → Option String
  | .vStr s => some s
  | .vList [] => none
  | .vList xs => some (String.intercalate ", " xs)
  | .vNone => none

def specRowOf (uid : Json) (sc : SpecSchema) : SpecRow :=
  ⟨uid, sc.spec_id, sc.title, serializeSpecValue sc.value⟩

def DBState.addSpecRows (db : DBState) (uid : Json) (scs : List SpecSchema) : DBState :=
  { db with specs := db.specs ++ scs.map (specRowOf uid) }

def DBState.addPriceRows (db : DBState) (uid : Json) (prs : List (String × Json)) : DBState :=
  { db with prices := db.prices ++ (prs.filter (fun p => truthy p.2)).map (fun p => ⟨uid, p.1, p.2⟩) }

def DBState.addTechRows (db : DBState) (uid : Json) (ts : List TechSchema) : DBState :=
  { db with techs := db.techs ++ ts.map (fun t => ⟨uid, t.title, t.content⟩) }

def DBState.addFeatRows (db : DBState) (uid : Json) (fs : List FeatureSchema) : DBState :=
  { db with feats := db.feats ++ fs.map (fun f => ⟨uid, f.group_title, f.content⟩) }

/-- The four bulk deletes at the top of `_update_product`, in source order. -/
def deleteChildren (uid : Json) (db : DBState) : DBState :=
  (((db.delSpecs uid).delPrices uid).delTechs uid).delFeats uid

/-! ## `ProductCollector._update_product` and `_create_product` -/

/-- The five root-attribute assignments at the top of `_update_product`,
in source order.  Each assignment defaults to the previously stored
value when the key is absent; the description is passed through
`_clean_html` (which can raise) even when it comes from the stored row.
Assignments already made stay in the open transaction if a later step
raises. -/
def updateRoots (prod : ProductRow) (data : Json) (sess : Sess) : Except PyErr Unit × Sess :=
  match jget data "title" prod.title with
  | .error e => (.error e, sess)
  | .ok t =>
    let sess := { sess with pending := sess.pending.updProducts prod.uid (fun r => { r with title := t }) }
    match jget data "display_title" prod.display_title with
    | .error e => (.error e, sess)
    | .ok dt =>
      let sess := { sess with pending := sess.pending.updProducts prod.uid (fun r => { r with display_title := dt }) }
      match jget data "url" prod.url with
      | .error e => (.error e, sess)
      | .ok u =>
        let sess := { sess with pending := sess.pending.updProducts prod.uid (fun r => { r with url := u }) }
        match (do
            let draw ← jget data "description" prod.description
            cleanHtml draw : Except PyErr String) with
        | .error e => (.error e, sess)
        | .ok d =>
          let sess := { sess with pending := sess.pending.updProducts prod.uid (fun r => { r with description := Json.str d }) }
          match jget data "tagline" prod.tagline with
          | .error e => (.error e, sess)
          | .ok tg =>
            (.ok (), { sess with pending := sess.pending.updProducts prod.uid (fun r => { r with tagline := tg }) })

/-- `ProductCollector._update_product`: update root attributes, delete
all four child row sets, re-extract and re-insert them, then commit.
There is no rollback on failure: whatever was already applied stays in
the open transaction. -/
def updateProduct (prod : ProductRow) (data : Json) (sess : Sess) : Except PyErr Json × Sess :=
  match updateRoots prod data sess with
  | (.error e, s) => (.error e, s)
  | (.ok _, s) =>
    let s := { s with pending := deleteChildren prod.uid s.pending }
    match extractSpecs data with
    | .error e => (.error e, s)
    | .ok scs =>
      let s := { s with pending := s.pending.addSpecRows prod.uid scs }
      match extractPrices data with
      | .error e => (.error e, s)
      | .ok prs =>
        let s := { s with pending := s.pending.addPriceRows prod.uid prs }
        match extractTechnologies data with
        | .error e => (.error e, s)
        | .ok ts =>
          let s := { s with pending := s.pending.addTechRows prod.uid ts }
          match extractFeatures data with
          | .error e => (.error e, s)
          | .ok fs =>
            let s := { s with pending := s.pending.addFeatRows prod.uid fs }
            (.ok prod.uid, s.commit)

/-- `ProductCollector._create_product`: read the root fields (cleaning
the description), insert the product row, extract and insert the four
child sets, then commit.  As in the source, a failure after the insert
leaves the new rows in the open transaction. -/
def createProduct (data : Json) (sess : Sess) : Except PyErr Json × Sess :=
  match jget data "uid" .null with
  | .error e => (.error e, sess)
  | .ok uid =>
  match jget data "title" (.str "") with
  | .error e => (.error e, sess)
  | .ok t =>
  match jget data "display_title" (.str "") with
  | .error e => (.error e, sess)
  | .ok dt =>
  match jget data "url" (.str "") with
  | .error e => (.error e, sess)
  | .ok u =>
  match (do
      let draw ← jget data "description" (.str "")
      cleanHtml draw : Except PyErr String) with
  | .error e => (.error e, sess)
  | .ok d =>
  match jget data "tagline" (.str "") with
  | .error e => (.error e, sess)
  | .ok tg =>
    let s := { sess with pending := sess.pending.addProduct ⟨uid, t, dt, u, .str d, tg⟩ }
    match extractSpecs data with
    | .error e => (.error e, s)
    | .ok scs =>
      let s := { s with pending := s.pending.addSpecRows uid scs }
      match extractPrices data with
      | .error e => (.error e, s)
      | .ok prs =>
        let s := { s with pending := s.pending.addPriceRows uid prs }
        match extractTechnologies data with
        | .error e => (.error e, s)
        | .ok ts =>
          let s := { s with pending := s.pending.addTechRows uid ts }
          match extractFeatures data with
          | .error e => (.error e, s)
          | .ok fs =>
            let s := { s with pending := s.pending.addFeatRows uid fs }
            (.ok uid, s.commit)

/-! ## `GraphQLClient.execute` (madshus/utils/graphql.py) -/

/-- Python substring test used by `"errors" in s` on a string body. -/
def hasSubstr (needle : List Char) : List Char → Bool
  | [] => needle.isEmpty
  | c :: rest => needle.isPrefixOf (c :: rest) || hasSubstr needle rest

/-- Python `key in v` on a decoded body: key membership for dicts,
element membership for lists, substring for strings, TypeError otherwise. -/
def pyContains (v : Json) (key : String) : Except PyErr Bool :=
  match v with
  | .obj kvs => .ok (kvs.lookup key).isSome
  | .arr xs => .ok (xs.toList.any (fun j => j = Json.str key))
  | .str s => .ok (hasSubstr key.data s.data)
  | _ => .error .typeError

/-- Python `v[key]` with a string key. -/
def pyIndexStr (v : Json) (key : String) : Except PyErr Json :=
  match v with
  | .obj kvs =>
    match kvs.lookup key with
    | some x => .ok x
    | none => .error .keyError
  | _ => .error .typeError

/-- `GraphQLClient.execute`: a transport/HTTP failure propagates as a
requests exception; a decoded body containing an `errors` field raises
`GraphQLError(data["errors"])`; any other body is returned unchanged. -/
def executeModel (outcome : Except Unit Json) : Except PyErr Json :=
  match outcome with
  | .error _ => .error .transport
  | .ok body =>
    match pyContains body "errors" with
    | .error e => .error e
    | .ok true =>
      match pyIndexStr body "errors" with
      | .error e => .error e
      | .ok errs => .error (.graphql errs)
    | .ok false => .ok body

/-! ## `ProductCollector.collect_products` / `collect_product` -/

/-- The filter-expression string built in `collect_products` (literal
braces are escaped). -/
def buildQueryString (region locale : String) (category : Int) : String :=
  "\x7b\"bc_products." ++ region ++ ".categories\":\x7b\"$in\":[" ++ toString category
    ++ "]\x7d,\"regions\":\x7b\"$in\":[\"" ++ region ++ "\"]\x7d\x7d"
    ++ "&limit=30&skip=0&include_count=true&asc=bc_products." ++ region ++ ".sort_order"
    ++ "&locale=" ++ locale ++ "&include_fallback=true"

/-- The external catalog API: decoded response bodies (or a transport
failure) for the paginated grid query and the detail query. -/
structure World where
  grid : String → String → Except Unit Json
  detail : Json → String → String → Except Unit Json

/-- Observable I/O of one run: detail fetches and committed upserts. -/
inductive Event where
  | fetchDetail (url : Json) : Event
  | upsert (url : Json) (uid : Json) : Event
deriving DecidableEq

structure LoopSt where
  urls : List Json
  collected : List Json
  sess : Sess
  trace : List Event
deriving DecidableEq

/-- Python `set.add` on the run's uid set. -/
def setAdd (s : List Json) (x : Json) : List Json := if x ∈ s then s else s ++ [x]

/-- The guard `if limit and len(collected_uids) >= limit`: a falsy limit
(None or 0) disables the cap. -/
def limitHit (limit : Option Int) (collected : List Json) : Bool :=
  match limit with
  | none => false
  | some n => if n = 0 then false else decide ((collected.length : Int) ≥ n)

/-- `ProductCollector.collect_product`: fetch the detail payload, dig out
the product object and its uid, then update or create.  Every exception
is caught and turned into `None`; the session is NOT rolled back, so a
failed upsert's partial writes stay in the open transaction. -/
def collectProduct (w : World) (locale region : String) (url : Json) (st : LoopSt) :
    Option Json × LoopSt :=
  let st := { st with trace := st.trace ++ [Event.fetchDetail url] }
  match executeModel (w.detail url locale region) with
  | .error _ => (none, st)
  | .ok resp =>
    match (do
        let d ← jget resp "data" (Json.objL [])
        jget d "product" (Json.objL []) : Except PyErr Json) with
    | .error _ => (none, st)
    | .ok pdata =>
      if truthy pdata then
        match jget pdata "uid" .null with
        | .error _ => (none, st)
        | .ok uid =>
          if truthy uid then
            match st.sess.pending.products.find? (fun r => r.uid = uid) with
            | some prod =>
              match updateProduct prod pdata st.sess with
              | (.error _, s) => (none, { st with sess := s })
              | (.ok u, s) => (some u, { st with sess := s, trace := st.trace ++ [Event.upsert url u] })
            | none =>
              match createProduct pdata st.sess with
              | (.error _, s) => (none, { st with sess := s })
              | (.ok u, s) => (some u, { st with sess := s, trace := st.trace ++ [Event.upsert url u] })
          else (none, st)
      else (none, st)

/-- The per-product loop inside one category.  A failure while reading a
grid entry's url is caught by the category-level handler, abandoning the
rest of this category's entries; a url already processed this run is
skipped; a truthy uid returned by `collect_product` is added to the
run's uid set. -/
def procProducts (w : World) (region locale : String) (limit : Option Int) :
    List Json → LoopSt → LoopSt
  | [], st => st
  | pd :: rest, st =>
    if limitHit limit st.collected then st
    else
      match jget pd "url" .null with
      | .error _ => st
      | .ok url =>
        if truthy url = false || url ∈ st.urls then procProducts w region locale limit rest st
        else
          let st1 := { st with urls := st.urls ++ [url] }
          let res := collectProduct w locale region url st1
          let st3 :=
            match res.1 with
            | some u => if truthy u then { res.2 with collected := setAdd res.2.collected u } else res.2
            | none => res.2
          procProducts w region locale limit rest st3

/-- One iteration of the category loop: build the filter expression, run
the grid query, dig out the product list, then run the product loop.
Any failure up to obtaining the list is caught and the category skipped. -/
def procCategory (w : World) (region locale : String) (limit : Option Int)
    (category : Int) (st : LoopSt) : LoopSt :=
  match (do
      let resp ← executeModel (w.grid (buildQueryString region locale category) region)
      let d ← jget resp "data" (Json.objL [])
      let pg ← jget d "paginatedProductGrid" (Json.objL [])
      let pds ← jget pg "products" (Json.arrL [])
      pyIter pds : Except PyErr (List Json)) with
  | .error _ => st
  | .ok pds => procProducts w region locale limit pds st

/-- The category loop with the global stopping condition checked before
each category. -/
def runCats (w : World) (region locale : String) (limit : Option Int) :
    List Int → LoopSt → LoopSt
  | [], st => st
  | c :: rest, st =>
    if limitHit limit st.collected then st
    else runCats w region locale limit rest (procCategory w region locale limit c st)

/-- `categories` defaults to `range(1, 301)`. -/
def defaultCategories : List Int := (List.range 300).map (fun i => (i : Int) + 1)

/-- `ProductCollector.collect_products`: the whole run, starting from an
empty dedup set, empty uid set and the given database session. -/
def collectProducts (w : World) (region locale : String)
    (categories : Option (List Int)) (limit : Option Int) (sess : Sess) : LoopSt :=
  runCats w region locale limit (categories.getD defaultCategories)
    { urls := [], collected := [], sess := sess, trace := [] }

/-! ## Specification-side predicates and helper constructions -/

/-- The tag regex finds no match in `l`: every `<` is followed by no `>`
before the next newline. -/
def TagFree : List Char → Prop
  | [] => True
  | c :: rest => (c = '<' → dropTag rest = none) ∧ TagFree rest

/-- Two adjacent characters are never both whitespace. -/
def NoAdjWsRel (a b : Char) : Prop := ¬(isPySpace a = true ∧ isPySpace b = true)

/-- Pure dict lookup with default (the value `data.get(k, d)` returns
when `data` is known to be a dict). -/
def jlookD (data : Json) (key : String) (dflt : Json) : Json :=
  match data with
  | .obj kvs => (kvs.lookup key).getD dflt
  | _ => dflt

/-- A well-shaped `feature_details` payload built from groups of
(title, item contents), as the API delivers them. -/
def featPayload (gs : List (String × List String)) : Json :=
  Json.objL [("details", Json.objL [("feature_details", Json.arrL (gs.map (fun g =>
    Json.objL [("group_title", Json.str g.1),
      ("group", Json.arrL (g.2.map (fun c => Json.objL [("content", Json.str c)])))])))])]

/-- The rows the spec says feature extraction must produce: one row per
item, carrying the parent group's title, dropping empty contents. -/
def featExpected (gs : List (String × List String)) : List FeatureSchema :=
  (gs.map (fun g => (g.2.filter (fun c => c ≠ "")).map
    (fun c => (⟨some g.1, c⟩ : FeatureSchema)))).flatten

/-- A payload whose `details.technology` field is `t`. -/
def techPayload (t : Json) : Json :=
  Json.objL [("details", Json.objL [("technology", t)])]

/-! ## Concrete run scenarios used by the claims -/

/-- Initial database: product `u1` with one spec row, previously
collected from `/p1`. -/
def dbC1 : DBState :=
  { products := [⟨Json.str "u1", Json.str "A", Json.str "A", Json.str "/p1", Json.str "", Json.str ""⟩]
    specs := [⟨Json.str "u1", "s1", "Length", some "170cm"⟩]
    prices := [], techs := [], feats := [] }

def sessC1 : Sess := { committed := dbC1, pending := dbC1 }

/-- Grid page for the single category: two products. -/
def gridBodyC1 : Json :=
  Json.objL [("data", Json.objL [("paginatedProductGrid", Json.objL
    [("products", Json.arrL [Json.objL [("url", Json.str "/p1")], Json.objL [("url", Json.str "/p2")]]),
     ("total", Json.num 2)])])]

/-- Detail payload for `/p1`: its `updated_product_specs` field is a
number, so `_extract_specs` raises TypeError after the child deletes. -/
def detailBodyC1p1 : Json :=
  Json.objL [("data", Json.objL [("product", Json.objL
    [("uid", Json.str "u1"), ("updated_product_specs", Json.num 5)])])]

/-- Detail payload for `/p2`: a well-formed new product. -/
def detailBodyC1p2 : Json :=
  Json.objL [("data", Json.objL [("product", Json.objL
    [("uid", Json.str "u2"), ("title", Json.str "B")])])]

def wC1 : World :=
  { grid := fun _ _ => .ok gridBodyC1
    detail := fun url _ _ =>
      if url = Json.str "/p1" then .ok detailBodyC1p1
      else if url = Json.str "/p2" then .ok detailBodyC1p2
      else .ok (Json.objL []) }

def outC1 : LoopSt := collectProducts wC1 "no" "en-us" (some [1]) none sessC1

/-- Is this event a detail fetch of `u`? -/
def isFetchOf (u : Json) : Event → Bool
  | .fetchDetail v => v = u
  | _ => false

/-- Is this event an upsert triggered by fetching url `u`? -/
def isUpsertOf (u : Json) : Event → Bool
  | .upsert v _ => v = u
  | _ => false

/-- Number of detail fetches of url `u` in a trace. -/
def fetchCount (tr : List Event) (u : Json) : Nat := (tr.filter (isFetchOf u)).length

/-- Number of upserts for url `u` in a trace. -/
def upsertCount (tr : List Event) (u : Json) : Nat := (tr.filter (isUpsertOf u)).length

/-- Trace invariant of the run loop: every url is fetched at most once,
upserted at most as often as fetched, and fetched urls are recorded in
the dedup set. -/
def TraceInv (st : LoopSt) : Prop :=
  ∀ u, fetchCount st.trace u ≤ 1 ∧ upsertCount st.trace u ≤ fetchCount st.trace u ∧
    (1 ≤ fetchCount st.trace u → u ∈ st.urls)

/-- Result invariant: the uid set is duplicate-free and holds exactly
the uids of committed upserts. -/
def CollInv (st : LoopSt) : Prop :=
  st.collected.Nodup ∧ ∀ u, u ∈ st.collected ↔ ∃ url, Event.upsert url u ∈ st.trace

/-! ### Scenario: an empty database -/

def dbEmpty : DBState := ⟨[], [], [], [], []⟩

def sessEmpty : Sess := ⟨dbEmpty, dbEmpty⟩

/-! ### Scenario for C10: create a product, then update it with a
payload that lacks the `description` key -/

def dataCreateC10 : Json :=
  Json.objL [("uid", Json.str "u1"), ("title", Json.str "A"),
    ("description", Json.str "a<b\nc>d")]

def sessC10 : Sess := (createProduct dataCreateC10 sessEmpty).2

/-- The product row `_create_product` stores for `dataCreateC10`: the
description keeps an unmatched `<` because the tag span contains a
newline, which the whitespace collapse then turns into a space. -/
def prodC10 : ProductRow :=
  ⟨Json.str "u1", Json.str "A", Json.str "", Json.str "", Json.str "a<b c>d", Json.str ""⟩

/-- Update payload without a `description` key. -/
def dataUpdC10 : Json := Json.objL [("uid", Json.str "u1"), ("title", Json.str "A2")]

/-! ### Scenario for the C2 witness: an existing product with two spec
rows, updated by a payload carrying one spec -/

def gridBodyC3 : Json :=
  Json.objL [("data", Json.objL [("paginatedProductGrid", Json.objL
    [("products", Json.arrL [Json.objL [("url", Json.str "/x")]]), ("total", Json.num 1)])])]

def detailBodyC3 : Json :=
  Json.objL [("data", Json.objL [("product", Json.objL
    [("uid", Json.str "ux"), ("title", Json.str "X")])])]

/-- Both category 1 and category 2 list the same product url `/x`. -/
def wC3 : World :=
  { grid := fun _ _ => .ok gridBodyC3
    detail := fun url _ _ =>
      if url = Json.str "/x" then .ok detailBodyC3 else .ok (Json.objL []) }

def outC3 : LoopSt := collectProducts wC3 "no" "en-us" (some [1, 2]) none sessEmpty

/-! ### Scenario for C7 and C9: one category with two products -/

def gridBodyMulti : Json :=
  Json.objL [("data", Json.objL [("paginatedProductGrid", Json.objL
    [("products", Json.arrL [Json.objL [("url", Json.str "/a")], Json.objL [("url", Json.str "/b")]]),
     ("total", Json.num 2)])])]

def wMulti : World :=
  { grid := fun _ _ => .ok gridBodyMulti
    detail := fun url _ _ =>
      if url = Json.str "/a" then
        .ok (Json.objL [("data", Json.objL [("product", Json.objL
          [("uid", Json.str "ua"), ("title", Json.str "A")])])])
      else if url = Json.str "/b" then
        .ok (Json.objL [("data", Json.objL [("product", Json.objL
          [("uid", Json.str "ub"), ("title", Json.str "B")])])])
      else .ok (Json.objL []) }

/-- The same run capped at one product. -/
def outC7 : LoopSt := collectProducts wMulti "no" "en-us" (some [1]) (some 1) sessEmpty

/-- The same run with `limit=0`. -/
def outC9 : LoopSt := collectProducts wMulti "no" "en-us" (some [1]) (some 0) sessEmpty

/-! # Theorems

Reduction helpers for the `Except` monad used by the embedding. -/

theorem ebind_ok {α β : Type} (a : α) (f : α → Except PyErr β) :
    (Except.ok a >>= f : Except PyErr β) = f a := rfl

theorem ebind_error {α β : Type} (e : PyErr) (f : α → Except PyErr β) :
    (Except.error e >>= f : Except PyErr β) = Except.error e := rfl

theorem emap_ok {α β : Type} (a : α) (f : α → β) :
    (f <$> Except.ok a : Except PyErr β) = Except.ok (f a) := rfl

theorem emap_error {α β : Type} (e : PyErr) (f : α → β) :
    (f <$> Except.error e : Except PyErr β) = Except.error e := rfl

theorem epure_eq {α : Type} (a : α) : (pure a : Except PyErr α) = Except.ok a := rfl

theorem truthy_str (s : String) : truthy (Json.str s) = decide (s ≠ "") := rfl

/-! ## C6: `_clean_html` -/

theorem stripTagsF_congr : ∀ (fuel fuel' : Nat) (l : List Char),
    l.length ≤ fuel → l.length ≤ fuel' → stripTagsF fuel l = stripTagsF fuel' l := by
  intro fuel
  induction fuel with
  | zero =>
    intro fuel' l hl hl'
    rw [Nat.le_zero, List.length_eq_zero] at hl
    subst hl
    cases fuel' <;> rfl
  | succ fuel ih =>
    intro fuel' l hl hl'
    cases l with
    | nil => cases fuel' <;> rfl
    | cons c rest =>
      cases fuel' with
      | zero => simp at hl'
      | succ fuel'' =>
        simp only [List.length_cons, Nat.add_le_add_iff_right] at hl hl'
        rw [stripTagsF, stripTagsF]
        by_cases hc : c = '<'
        · rw [if_pos hc, if_pos hc]
          cases hdt : dropTag rest with
          | some rest2 =>
            have h2 := dropTag_length hdt
            dsimp only
            rw [ih fuel'' rest2 (by omega) (by omega)]
          | none =>
            dsimp only
            rw [ih fuel'' rest hl hl']
        · rw [if_neg hc, if_neg hc, ih fuel'' rest hl hl']

theorem stripTags_nil : stripTags [] = [] := rfl

theorem stripTags_lt_some {rest rest2 : List Char} (h : dropTag rest = some rest2) :
    stripTags ('<' :: rest) = stripTags rest2 := by
  have h2 := dropTag_length h
  unfold stripTags
  rw [List.length_cons, stripTagsF, if_pos rfl, h]
  exact stripTagsF_congr _ _ _ (by omega) le_rfl

theorem stripTags_lt_none {rest : List Char} (h : dropTag rest = none) :
    stripTags ('<' :: rest) = '<' :: stripTags rest := by
  unfold stripTags
  rw [List.length_cons, stripTagsF, if_pos rfl, h]

theorem stripTags_cons {c : Char} {rest : List Char} (h : ¬ c = '<') :
    stripTags (c :: rest) = c :: stripTags rest := by
  unfold stripTags
  rw [List.length_cons, stripTagsF, if_neg h]

/-- Custom induction principle following the regex scan. -/
theorem stripTags_rec (motive : List Char → Prop)
    (h1 : motive [])
    (h2 : ∀ rest rest2, dropTag rest = some rest2 → motive rest2 → motive ('<' :: rest))
    (h3 : ∀ rest, dropTag rest = none → motive rest → motive ('<' :: rest))
    (h4 : ∀ c rest, ¬ c = '<' → motive rest → motive (c :: rest)) :
    ∀ l, motive l := by
  have key : ∀ n l, l.length ≤ n → motive l := by
    intro n
    induction n with
    | zero =>
      intro l hl
      rw [Nat.le_zero, List.length_eq_zero] at hl
      subst hl
      exact h1
    | succ n ih =>
      intro l hl
      cases l with
      | nil => exact h1
      | cons c rest =>
        simp only [List.length_cons, Nat.add_le_add_iff_right] at hl
        by_cases hc : c = '<'
        · subst hc
          cases hdt : dropTag rest with
          | some rest2 =>
            have h5 := dropTag_length hdt
            exact h2 rest rest2 hdt (ih rest2 (by omega))
          | none => exact h3 rest hdt (ih rest hl)
        · exact h4 c rest hc (ih rest hl)
  exact fun l => key l.length l le_rfl

theorem dropTag_stripTags_none {l : List Char} (h : dropTag l = none) :
    dropTag (stripTags l) = none := by
  induction l using stripTags_rec with
  | h1 => rfl
  | h2 rest rest2 hdt ih =>
    rw [dropTag] at h
    simp [hdt] at h
  | h3 rest hdt ih =>
    rw [stripTags_lt_none hdt, dropTag]
    have hr : dropTag rest = none := by
      rw [dropTag] at h
      simpa using h
    simpa using ih hr
  | h4 c rest hc ih =>
    rw [stripTags_cons hc, dropTag]
    rw [dropTag] at h
    split at h
    · cases h
    · split at h
      · next hnl =>
        simp [hnl]
      · next hgt hnl =>
        simp only [if_neg hgt, if_neg hnl]
        exact ih h

theorem stripTags_tagFree (l : List Char) : TagFree (stripTags l) := by
  induction l using stripTags_rec with
  | h1 => exact trivial
  | h2 rest rest2 hdt ih =>
    rw [stripTags_lt_some hdt]
    exact ih
  | h3 rest hdt ih =>
    rw [stripTags_lt_none hdt]
    exact ⟨fun _ => dropTag_stripTags_none hdt, ih⟩
  | h4 c rest hc ih =>
    rw [stripTags_cons hc]
    exact ⟨fun h => absurd h hc, ih⟩

theorem collapseWs_head (d : Char) (rest : List Char) :
    ∃ t, collapseWs (d :: rest) = (if isPySpace d then ' ' else d) :: t := by
  induction rest generalizing d with
  | nil =>
    by_cases h : isPySpace d <;> exact ⟨[], by simp [collapseWs, h]⟩
  | cons e rest ih =>
    by_cases hd : isPySpace d
    · by_cases he : isPySpace e
      · obtain ⟨t, ht⟩ := ih e
        exact ⟨t, by rw [collapseWs, if_pos hd, if_pos he, ht, if_pos he, if_pos hd]⟩
      · exact ⟨collapseWs (e :: rest), by rw [collapseWs, if_pos hd, if_neg he, if_pos hd]⟩
    · exact ⟨collapseWs (e :: rest), by rw [collapseWs, if_neg hd, if_neg hd]⟩

theorem collapseWs_only_space {l : List Char} :
    ∀ c ∈ collapseWs l, isPySpace c = true → c = ' ' := by
  induction l using collapseWs.induct with
  | case1 => simp [collapseWs]
  | case2 c hc => simp [collapseWs, hc]
  | case3 c hc =>
    rw [collapseWs, if_neg hc]
    intro x hx h
    simp only [List.mem_singleton] at hx
    subst hx
    exact absurd h hc
  | case4 c d rest hc hd ih =>
    rw [collapseWs, if_pos hc, if_pos hd]
    exact ih
  | case5 c d rest hc hd ih =>
    rw [collapseWs, if_pos hc, if_neg hd]
    intro x hx h
    rcases List.mem_cons.mp hx with hx | hx
    · exact hx
    · exact ih x hx h
  | case6 c d rest hc ih =>
    rw [collapseWs, if_neg hc]
    intro x hx h
    rcases List.mem_cons.mp hx with hx | hx
    · subst hx
      exact absurd h hc
    · exact ih x hx h

theorem collapseWs_chain' (l : List Char) : List.Chain' NoAdjWsRel (collapseWs l) := by
  induction l using collapseWs.induct with
  | case1 => simp [collapseWs]
  | case2 c hc =>
    rw [collapseWs, if_pos hc]
    simp
  | case3 c hc =>
    rw [collapseWs, if_neg hc]
    simp
  | case4 c d rest hc hd ih =>
    rw [collapseWs, if_pos hc, if_pos hd]
    exact ih
  | case5 c d rest hc hd ih =>
    rw [collapseWs, if_pos hc, if_neg hd]
    obtain ⟨t, ht⟩ := collapseWs_head d rest
    rw [if_neg hd] at ht
    rw [ht] at ih ⊢
    exact List.chain'_cons.mpr ⟨fun hcon => hd hcon.2, ih⟩
  | case6 c d rest hc ih =>
    rw [collapseWs, if_neg hc]
    obtain ⟨t, ht⟩ := collapseWs_head d rest
    rw [ht] at ih ⊢
    exact List.chain'_cons.mpr ⟨fun hcon => hc hcon.1, ih⟩

theorem chain'_of_suffix {l l' : List Char} (h : l' <:+ l)
    (hc : List.Chain' NoAdjWsRel l) : List.Chain' NoAdjWsRel l' := by
  obtain ⟨t, rfl⟩ := h
  induction t with
  | nil => exact hc
  | cons a t ih => exact ih (by simpa using hc.tail)

theorem dropWhile_suffix' (p : Char → Bool) (l : List Char) : List.dropWhile p l <:+ l := by
  induction l with
  | nil => simp
  | cons a l ih =>
    rw [List.dropWhile]
    by_cases h : p a
    · simp only [h]
      exact ih.trans (List.suffix_cons a l)
    · simp [h]

theorem head?_dropWhile (p : Char → Bool) (l : List Char) {c : Char}
    (h : (List.dropWhile p l).head? = some c) : p c = false := by
  induction l with
  | nil => simp [List.dropWhile] at h
  | cons a l ih =>
    rw [List.dropWhile] at h
    by_cases hp : p a
    · simp only [hp] at h
      exact ih h
    · simp only [Bool.not_eq_true] at hp
      simp [hp] at h
      subst h
      simpa using hp

theorem getLast?_of_suffix {l l' : List Char} (h : l' <:+ l) {c : Char}
    (hc : l'.getLast? = some c) : l.getLast? = some c := by
  obtain ⟨t, rfl⟩ := h
  rw [List.getLast?_append, hc]
  rfl

theorem flip_noAdjWsRel : flip NoAdjWsRel = NoAdjWsRel := by
  funext a b
  simp only [flip, NoAdjWsRel]
  rw [and_comm]

theorem mem_pyStrip {c : Char} {l : List Char} (h : c ∈ pyStrip l) : c ∈ l := by
  unfold pyStrip trimLeft at h
  have h1 := (dropWhile_suffix' _ _).sublist.subset h
  rw [List.mem_reverse] at h1
  have h2 := (dropWhile_suffix' _ _).sublist.subset h1
  rw [List.mem_reverse] at h2
  exact h2

theorem chain'_pyStrip {l : List Char} (h : List.Chain' NoAdjWsRel l) :
    List.Chain' NoAdjWsRel (pyStrip l) := by
  unfold pyStrip trimLeft
  apply chain'_of_suffix (dropWhile_suffix' _ _)
  rw [List.chain'_reverse, flip_noAdjWsRel]
  apply chain'_of_suffix (dropWhile_suffix' _ _)
  rw [List.chain'_reverse, flip_noAdjWsRel]
  exact h

theorem head?_pyStrip {c : Char} {l : List Char} (h : (pyStrip l).head? = some c) :
    isPySpace c = false := by
  unfold pyStrip trimLeft at h
  exact head?_dropWhile _ _ h

theorem getLast?_pyStrip {c : Char} {l : List Char} (h : (pyStrip l).getLast? = some c) :
    isPySpace c = false := by
  unfold pyStrip trimLeft at h
  have h1 := getLast?_of_suffix (dropWhile_suffix' _ _) h
  rw [List.getLast?_reverse] at h1
  exact head?_dropWhile _ _ h1

/-- C6: `_clean_html` maps None and "" to the empty string; on any other
string it applies the three source stages in order: remove every
non-greedy tag span (afterwards the tag regex finds no further match),
collapse every whitespace run to a single space (the result contains no
whitespace other than single, non-adjacent plain spaces), and trim both
ends (no leading or trailing whitespace survives).  Whitespace is
Python's Unicode-aware class, as the non-ASCII instances (NBSP runs
collapsed, NBSP/FS trimmed, NEL collapsed) show. -/
theorem c6_clean_html_stages :
    cleanHtml Json.null = .ok "" ∧
    cleanHtml (Json.str "") = .ok "" ∧
    cleanHtml (Json.str "a\u00A0\u00A0b") = .ok "a b" ∧
    cleanHtml (Json.str "\u00A0x\u001C") = .ok "x" ∧
    cleanHtml (Json.str "a\u0085<b c>d") = .ok "a d" ∧
    ∀ s : String,
      cleanHtml (Json.str s) = .ok (cleanStr s) ∧
      cleanStr s = String.mk (pyStrip (collapseWs (stripTags s.data))) ∧
      TagFree (stripTags s.data) ∧
      (∀ c ∈ (cleanStr s).data, isPySpace c = true → c = ' ') ∧
      List.Chain' NoAdjWsRel (cleanStr s).data ∧
      (∀ c, (cleanStr s).data.head? = some c → isPySpace c = false) ∧
      (∀ c, (cleanStr s).data.getLast? = some c → isPySpace c = false) := by
  refine ⟨rfl, by decide, by decide, by decide, by decide,
    fun s => ⟨?_, rfl, stripTags_tagFree _, ?_, ?_, ?_, ?_⟩⟩
  · by_cases hs : s = ""
    · subst hs
      decide
    · simp [cleanHtml, truthy, hs]
  · intro c hc h
    exact collapseWs_only_space c (mem_pyStrip hc) h
  · exact chain'_pyStrip (collapseWs_chain' _)
  · intro c hc
    exact head?_pyStrip hc
  · intro c hc
    exact getLast?_pyStrip hc

/-! ## C1: no rollback after a failed upsert -/

/-- C1 (refuting evaluation): in `outC1`, upserting `/p1` fails inside
`_extract_specs` after the four child deletes.  `collect_product`
swallows the exception without rolling back; the run continues, and the
commit issued while creating `/p2` publishes the pending deletes, so the
committed database loses all of `u1`'s spec rows even though `u1`'s
upsert failed.  The claim's rollback guarantee does not hold. -/
theorem c1_partial_delete_survives :
    sessC1.committed.specs.filter (fun r => r.product_uid = Json.str "u1") ≠ [] ∧
    outC1.collected = [Json.str "u2"] ∧
    outC1.sess.committed.specs.filter (fun r => r.product_uid = Json.str "u1") = [] ∧
    outC1.trace = [Event.fetchDetail (Json.str "/p1"), Event.fetchDetail (Json.str "/p2"),
      Event.upsert (Json.str "/p2") (Json.str "u2")] := by
  decide

/-! ## C4: feature extraction -/

theorem JsonList.toList_ofList (xs : List Json) : (JsonList.ofList xs).toList = xs := by
  induction xs with
  | nil => rfl
  | cons x xs ih => simp [JsonList.ofList, JsonList.toList, ih]

theorem featItems_strs (t : String) (cs : List String) :
    featItems (Json.str t) (cs.map (fun c => Json.objL [("content", Json.str c)]))
      = .ok ((cs.filter (fun c => c ≠ "")).map (fun c => (⟨some t, c⟩ : FeatureSchema))) := by
  induction cs with
  | nil => rfl
  | cons c cs ih =>
    by_cases hc : c = ""
    · subst hc
      simpa [featItems, jget, Json.objL, JsonObj.ofList, JsonObj.lookup, truthy_str,
        ebind_ok] using ih
    · have ih' := ih
      simp only [Json.objL, JsonObj.ofList] at ih'
      simp [featItems, jget, Json.objL, JsonObj.ofList, JsonObj.lookup, truthy_str, hc,
        asOptStr, asStr, ih', ebind_ok, emap_ok, epure_eq, List.filter_cons]

theorem featGroups_built (gs : List (String × List String)) :
    featGroups (gs.map (fun g => Json.objL [("group_title", Json.str g.1),
        ("group", Json.arrL (g.2.map (fun c => Json.objL [("content", Json.str c)])))]))
      = .ok (featExpected gs) := by
  induction gs with
  | nil => rfl
  | cons g gs ih =>
    have ih' := ih
    have hfi := featItems_strs g.1 g.2
    simp only [Json.objL, JsonObj.ofList, Json.arrL] at ih' hfi
    simp [featGroups, jget, Json.objL, JsonObj.ofList, JsonObj.lookup, Json.arrL, pyIter,
      JsonList.toList_ofList, hfi, ih', featExpected, ebind_ok, emap_ok, epure_eq]

/-- C4 (amended): feature extraction flattens the groups to one row per
item carrying the parent group's title and drops items with empty
content, but stores the kept content verbatim: the source never passes
it through `_clean_html`. -/
theorem c4_features_flatten_verbatim (gs : List (String × List String)) :
    extractFeatures (featPayload gs) = .ok (featExpected gs) := by
  have h := featGroups_built gs
  simp only [Json.objL, JsonObj.ofList, Json.arrL] at h
  simp [extractFeatures, featPayload, jget, Json.objL, JsonObj.ofList, JsonObj.lookup,
    Json.arrL, pyIter, JsonList.toList_ofList, ebind_ok, h]

/-- C4 (counterexample): a kept feature item whose content is
`<p>C</p>` is stored exactly as `<p>C</p>`, while the HTML-stripping
function would produce `C`; so stored feature content is NOT
HTML-stripped as the claim states. -/
theorem c4_content_not_stripped :
    extractFeatures (featPayload [("G", ["<p>C</p>"])])
      = .ok [⟨some "G", "<p>C</p>"⟩] ∧
    cleanStr "<p>C</p>" = "C" ∧
    ("<p>C</p>" : String) ≠ "C" := by
  decide

/-! ## C5: technology extraction shape tolerance -/

theorem extractTechnologies_techPayload (t : Json) :
    extractTechnologies (techPayload t)
      = match t with
        | .arr xs => techItems xs.toList
        | .obj _ => techItem t
        | _ => .ok [] := by
  cases t <;> rfl

/-- C5: technology extraction treats a single mapping and its
one-element-list form identically: for `{"title": "T", "content":
"<p>C</p>"}` both shapes yield exactly one row with content `C` (tags
stripped), and an entry lacking a title is dropped in both shapes (the
result is then empty, or the error of cleaning the content). -/
theorem c5_single_object_eq_singleton_list :
    (∀ kvs : List (String × Json),
      extractTechnologies (techPayload (Json.objL kvs))
        = extractTechnologies (techPayload (Json.arrL [Json.objL kvs]))) ∧
    extractTechnologies (techPayload (Json.objL
        [("title", Json.str "T"), ("content", Json.str "<p>C</p>")]))
      = .ok [⟨"T", "C"⟩] ∧
    extractTechnologies (techPayload (Json.arrL
        [Json.objL [("title", Json.str "T"), ("content", Json.str "<p>C</p>")]]))
      = .ok [⟨"T", "C"⟩] ∧
    ∀ kvs : List (String × Json),
      truthy (jlookD (Json.objL kvs) "title" (Json.str "")) = false →
      extractTechnologies (techPayload (Json.objL kvs))
        = (cleanHtml (jlookD (Json.objL kvs) "content" (Json.str ""))).map (fun _ => []) := by
  refine ⟨fun kvs => ?_, by decide, by decide, fun kvs htitle => ?_⟩
  · rw [extractTechnologies_techPayload, extractTechnologies_techPayload]
    show techItem (Json.objL kvs) = techItems [Json.objL kvs]
    cases h : techItem (Json.objL kvs) with
    | error e => simp [techItems, h, ebind_ok, ebind_error, emap_ok, epure_eq]
    | ok r => simp [techItems, h, ebind_ok, emap_ok, epure_eq]
  · rw [extractTechnologies_techPayload]
    show techItem (Json.objL kvs) = _
    simp only [jlookD, Json.objL] at htitle
    simp only [techItem, jget, Json.objL, ebind_ok]
    cases h : cleanHtml (((JsonObj.ofList kvs).lookup "content").getD (Json.str "")) with
    | error e => simp [jlookD, h, htitle, ebind_ok, ebind_error, Except.map]
    | ok c => simp [jlookD, h, htitle, ebind_ok, epure_eq, Except.map]

/-- C5 witness: a technology entry lacking a title is dropped in both
the single-object and the one-element-list shape. -/
theorem c5_witness :
    extractTechnologies (techPayload (Json.objL [("content", Json.str "x")])) = .ok [] ∧
    extractTechnologies (techPayload (Json.arrL [Json.objL [("content", Json.str "x")]])) = .ok [] := by
  have h := c5_single_object_eq_singleton_list.2.2.2 [("content", Json.str "x")] (by decide)
  constructor
  · rw [h]
    decide
  · rw [← c5_single_object_eq_singleton_list.1, h]
    decide

/-! ## C8: `GraphQLClient.execute` -/

theorem JsonObj.lookup_ofList (kvs : List (String × Json)) (key : String) :
    (JsonObj.ofList kvs).lookup key
      = (kvs.find? (fun kv => kv.1 = key)).map (fun kv => kv.2) := by
  induction kvs with
  | nil => rfl
  | cons kv kvs ih =>
    obtain ⟨k, v⟩ := kv
    by_cases h : k = key
    · simp [JsonObj.ofList, JsonObj.lookup, List.find?_cons, h]
    · simp [JsonObj.ofList, JsonObj.lookup, List.find?_cons, h, ih]

/-- C8: the query execution turns a transport failure into a transport
exception; a decoded body with an `errors` field raises a GraphQLError
carrying exactly that structured error value; any body without an
`errors` field — including an empty result — is returned unchanged. -/
theorem c8_execute_distinguishes_errors :
    executeModel (.error ()) = .error .transport ∧
    (∀ kvs : List (String × Json),
      executeModel (.ok (Json.objL kvs)) =
        match (kvs.find? (fun kv => kv.1 = "errors")).map (fun kv => kv.2) with
        | some errs => .error (.graphql errs)
        | none => .ok (Json.objL kvs)) ∧
    executeModel (.ok (Json.objL [("data", Json.objL [("paginatedProductGrid",
        Json.objL [("products", Json.arrL []), ("total", Json.num 0)])])]))
      = .ok (Json.objL [("data", Json.objL [("paginatedProductGrid",
        Json.objL [("products", Json.arrL []), ("total", Json.num 0)])])]) := by
  refine ⟨rfl, fun kvs => ?_, by decide⟩
  simp only [executeModel, pyContains, pyIndexStr, Json.objL, JsonObj.lookup_ofList]
  cases h : (kvs.find? fun kv => kv.1 = "errors") with
  | none => simp [h]
  | some kv => simp [h]

/-! ## C2 and C10: `_update_product` -/

theorem updProducts_comp (db : DBState) (uid : Json) (f g : ProductRow → ProductRow)
    (hf : ∀ r, (f r).uid = r.uid) :
    (db.updProducts uid f).updProducts uid g = db.updProducts uid (fun r => g (f r)) := by
  simp only [DBState.updProducts, List.map_map]
  congr 1
  apply List.map_congr_left
  intro a _
  by_cases hh : a.uid = uid
  · simp [Function.comp, hh, hf]
  · simp [Function.comp, hh]

theorem jget_ok_eq {data : Json} {k : String} {d v : Json} (h : jget data k d = .ok v) :
    v = jlookD data k d := by
  cases data <;> simp [jget, jlookD] at h ⊢
  exact h.symm

/-- On success, `_update_product`'s root phase rewrites the product row
keyed by `prod.uid` field by field: each attribute takes the payload
value when the key is present and keeps the stored value otherwise, and
the description is re-cleaned in either case. -/
theorem updateRoots_ok_products {prod : ProductRow} {data : Json} {sess : Sess} {s' : Sess}
    (h : updateRoots prod data sess = (.ok (), s')) :
    ∃ d, cleanHtml (jlookD data "description" prod.description) = .ok d ∧
      s'.committed = sess.committed ∧
      s'.pending.products = sess.pending.products.map (fun r =>
        if r.uid = prod.uid then
          { r with title := jlookD data "title" prod.title,
                   display_title := jlookD data "display_title" prod.display_title,
                   url := jlookD data "url" prod.url,
                   description := Json.str d,
                   tagline := jlookD data "tagline" prod.tagline }
        else r) := by
  cases data with
  | obj kvs =>
    unfold updateRoots at h
    simp only [jget] at h
    try dsimp only at h
    simp only [ebind_ok] at h
    cases hd : cleanHtml ((kvs.lookup "description").getD prod.description) with
    | error e =>
      rw [hd] at h
      simp at h
    | ok d =>
      rw [hd] at h
      try dsimp only at h
      injection h with h1 h2
      refine ⟨d, by simpa [jlookD] using hd, ?_, ?_⟩
      · rw [← h2]
      · rw [← h2]
        dsimp only
        rw [updProducts_comp, updProducts_comp, updProducts_comp, updProducts_comp] <;>
          first
            | (intro r; rfl)
            | simp [DBState.updProducts, jlookD]
  | null =>
    unfold updateRoots at h
    simp [jget] at h
  | bool b =>
    unfold updateRoots at h
    simp [jget] at h
  | num n =>
    unfold updateRoots at h
    simp [jget] at h
  | str s2 =>
    unfold updateRoots at h
    simp [jget] at h
  | arr xs =>
    unfold updateRoots at h
    simp [jget] at h

/-- Structure of a successful `_update_product`: the returned uid is the
row's uid, all four extractions succeeded, and the final session is the
commit of root updates, child deletes and re-inserts. -/
theorem updateProduct_ok_shape {prod : ProductRow} {data : Json} {sess : Sess} {u : Json}
    {sess' : Sess} (h : updateProduct prod data sess = (.ok u, sess')) :
    u = prod.uid ∧
    ∃ s0 scs prs ts fs,
      updateRoots prod data sess = (.ok (), s0) ∧
      extractSpecs data = .ok scs ∧
      extractPrices data = .ok prs ∧
      extractTechnologies data = .ok ts ∧
      extractFeatures data = .ok fs ∧
      sess' = Sess.commit { s0 with pending :=
        ((((deleteChildren prod.uid s0.pending).addSpecRows prod.uid scs).addPriceRows
          prod.uid prs).addTechRows prod.uid ts).addFeatRows prod.uid fs } := by
  unfold updateProduct at h
  rcases hroot : updateRoots prod data sess with ⟨r0, s0⟩
  rw [hroot] at h
  cases r0 with
  | error e => simp at h
  | ok u0 =>
    cases u0
    try dsimp only at h
    cases hs : extractSpecs data with
    | error e =>
      rw [hs] at h
      simp at h
    | ok scs =>
      rw [hs] at h
      try dsimp only at h
      cases hp : extractPrices data with
      | error e =>
        rw [hp] at h
        simp at h
      | ok prs =>
        rw [hp] at h
        try dsimp only at h
        cases ht : extractTechnologies data with
        | error e =>
          rw [ht] at h
          simp at h
        | ok ts =>
          rw [ht] at h
          try dsimp only at h
          cases hf : extractFeatures data with
          | error e =>
            rw [hf] at h
            simp at h
          | ok fs =>
            rw [hf] at h
            try dsimp only at h
            injection h with h1 h2
            injection h1 with h1
            exact ⟨h1.symm, s0, scs, prs, ts, fs, rfl, rfl, rfl, rfl, rfl, h2.symm⟩

/-- C10 (amended): on a successful update, `title`, `display_title`,
`url` and `tagline` are overwritten exactly when their key is present in
the payload and kept otherwise; `description`, however, is recomputed by
passing the payload value — or, when the key is absent, the previously
stored value — through `_clean_html`, so an absent `description` key can
still change the stored description. -/
theorem c10_root_field_updates (prod : ProductRow) (data : Json) (sess : Sess)
    (u : Json) (sess' : Sess) (h : updateProduct prod data sess = (.ok u, sess')) :
    ∃ d, cleanHtml (jlookD data "description" prod.description) = .ok d ∧
      sess'.committed.products = sess.pending.products.map (fun r =>
        if r.uid = prod.uid then
          { r with title := jlookD data "title" prod.title,
                   display_title := jlookD data "display_title" prod.display_title,
                   url := jlookD data "url" prod.url,
                   description := Json.str d,
                   tagline := jlookD data "tagline" prod.tagline }
        else r) := by
  obtain ⟨hu, s0, scs, prs, ts, fs, hroot, hs, hp, ht, hf, hsess⟩ := updateProduct_ok_shape h
  obtain ⟨d, hd, hcom, hmap⟩ := updateRoots_ok_products hroot
  refine ⟨d, hd, ?_⟩
  subst hsess
  have hpr : (Sess.commit { s0 with pending :=
      ((((deleteChildren prod.uid s0.pending).addSpecRows prod.uid scs).addPriceRows
        prod.uid prs).addTechRows prod.uid ts).addFeatRows prod.uid fs }).committed.products
      = s0.pending.products := rfl
  rw [hpr, hmap]

/-- C10 witness: a concrete successful update where `title` is present
(overwritten) and `tagline` is absent (kept). -/
theorem c10_witness :
    ∃ d, cleanHtml (jlookD dataUpdC10 "description" prodC10.description) = .ok d ∧
      (updateProduct prodC10 dataUpdC10 sessC10).2.committed.products
        = sessC10.pending.products.map (fun r =>
          if r.uid = prodC10.uid then
            { r with title := jlookD dataUpdC10 "title" prodC10.title,
                     display_title := jlookD dataUpdC10 "display_title" prodC10.display_title,
                     url := jlookD dataUpdC10 "url" prodC10.url,
                     description := Json.str d,
                     tagline := jlookD dataUpdC10 "tagline" prodC10.tagline }
          else r) :=
  c10_root_field_updates prodC10 dataUpdC10 sessC10 (Json.str "u1")
    ((updateProduct prodC10 dataUpdC10 sessC10).2) (by decide)

/-- C10 (counterexample): the product was created with description
`a<b\nc>d`, stored HTML-cleaned as `a<b c>d`; an update whose payload
has NO `description` key re-cleans the stored value and commits `ad` —
the previously stored value is not left unchanged. -/
theorem c10_absent_description_still_changes :
    (createProduct dataCreateC10 sessEmpty).1 = .ok (Json.str "u1") ∧
    sessC10.committed.products = [prodC10] ∧
    prodC10.description = Json.str "a<b c>d" ∧
    (match dataUpdC10 with | .obj kvs => kvs.lookup "description" | _ => none) = none ∧
    (updateProduct prodC10 dataUpdC10 sessC10).1 = .ok (Json.str "u1") ∧
    (updateProduct prodC10 dataUpdC10 sessC10).2.committed.products
      = [{ prodC10 with title := Json.str "A2", description := Json.str "ad" }] ∧
    Json.str "ad" ≠ prodC10.description := by
  decide

theorem createProduct_ok_uid {data : Json} {sess : Sess} {u : Json} {s' : Sess}
    (h : createProduct data sess = (.ok u, s')) :
    jget data "uid" Json.null = .ok u := by
  unfold createProduct at h
  cases hu : jget data "uid" Json.null with
  | error e =>
    rw [hu] at h
    simp at h
  | ok uid0 =>
    rw [hu] at h
    try dsimp only at h
    repeat any_goals first
      | split at h
      | dsimp only at h
    all_goals try (exfalso; simp at h; done)
    all_goals injection h with h1 h2


theorem find?_uid_eq {l : List ProductRow} {uid : Json} {prod : ProductRow}
    (h : l.find? (fun r => r.uid = uid) = some prod) : prod.uid = uid := by
  have := List.find?_some h
  simpa using this

theorem collectProduct_effects (w : World) (locale region : String) (url : Json) (st : LoopSt) :
    (collectProduct w locale region url st).2.urls = st.urls ∧
    (collectProduct w locale region url st).2.collected = st.collected ∧
    (collectProduct w locale region url st).2.trace
      = st.trace ++ Event.fetchDetail url ::
          (match (collectProduct w locale region url st).1 with
           | some u => [Event.upsert url u]
           | none => []) ∧
    (∀ u₀, (collectProduct w locale region url st).1 = some u₀ → truthy u₀ = true) := by
  unfold collectProduct
  cases executeModel (w.detail url locale region) with
  | error e => simp
  | ok resp =>
    dsimp only
    cases (do
        let d ← jget resp "data" (Json.objL [])
        jget d "product" (Json.objL []) : Except PyErr Json) with
    | error e => simp
    | ok pdata =>
      dsimp only
      by_cases hpt : truthy pdata
      · rw [if_pos hpt]
        cases hgu : jget pdata "uid" Json.null with
        | error e => simp
        | ok uid =>
          dsimp only
          by_cases hut : truthy uid
          · rw [if_pos hut]
            cases hfind : st.sess.pending.products.find? (fun r => r.uid = uid) with
            | some prod =>
              dsimp only
              rcases hupd : updateProduct prod pdata st.sess with ⟨r1, s1⟩
              cases r1 with
              | error e => simp
              | ok u1 =>
                have huid : u1 = prod.uid := (updateProduct_ok_shape hupd).1
                have hpu : prod.uid = uid := find?_uid_eq hfind
                refine ⟨rfl, rfl, by simp, ?_⟩
                intro u₀ hh
                injection hh with hh
                subst hh
                rw [huid, hpu]
                exact hut
            | none =>
              dsimp only
              rcases hcr : createProduct pdata st.sess with ⟨r1, s1⟩
              cases r1 with
              | error e => simp
              | ok u1 =>
                have huid : jget pdata "uid" Json.null = .ok u1 := createProduct_ok_uid hcr
                rw [hgu] at huid
                injection huid with huid
                refine ⟨rfl, rfl, by simp, ?_⟩
                intro u₀ hh
                injection hh with hh
                subst hh
                rw [← huid]
                exact hut
          · rw [if_neg hut]
            simp
      · rw [if_neg hpt]
        simp


theorem fetchCount_ext (tr : List Event) (url u : Json) (ups : List Event)
    (hups : ∀ e ∈ ups, isFetchOf u e = false) :
    fetchCount (tr ++ Event.fetchDetail url :: ups) u
      = fetchCount tr u + (if url = u then 1 else 0) := by
  have h1 : ups.filter (isFetchOf u) = [] := by
    rw [List.filter_eq_nil_iff]
    intro e he
    simp [hups e he]
  by_cases h : url = u
  · simp [fetchCount, List.filter_append, List.filter_cons, isFetchOf, h, h1]
  · simp [fetchCount, List.filter_append, List.filter_cons, isFetchOf, h, h1]

theorem upsertCount_ext (tr : List Event) (url u : Json) (ups : List Event) :
    upsertCount (tr ++ Event.fetchDetail url :: ups) u
      = upsertCount tr u + upsertCount ups u := by
  simp [upsertCount, List.filter_append, List.filter_cons, isUpsertOf]

theorem upsertCount_single (url u₀ u : Json) :
    upsertCount [Event.upsert url u₀] u = if url = u then 1 else 0 := by
  by_cases h : url = u <;> simp [upsertCount, isUpsertOf, h]

theorem mem_setAdd {s : List Json} {x u : Json} : u ∈ setAdd s x ↔ u ∈ s ∨ u = x := by
  by_cases h : x ∈ s
  · simp only [setAdd, if_pos h]
    constructor
    · exact Or.inl
    · rintro (hu | rfl)
      · exact hu
      · exact h
  · simp [setAdd, if_neg h]

theorem setAdd_nodup {s : List Json} {x : Json} (h : s.Nodup) : (setAdd s x).Nodup := by
  by_cases hx : x ∈ s
  · simpa [setAdd, hx] using h
  · simp [setAdd, hx, List.nodup_append, h]

theorem setAdd_length {s : List Json} {x : Json} : (setAdd s x).length ≤ s.length + 1 := by
  by_cases h : x ∈ s <;> simp [setAdd, h]

theorem step_inv (w : World) (locale region : String) {st : LoopSt} {url : Json}
    (h1 : TraceInv st) (h2 : CollInv st) (hurl : url ∉ st.urls) :
    TraceInv (match (collectProduct w locale region url { st with urls := st.urls ++ [url] }).1 with
      | some u => if truthy u then
          { (collectProduct w locale region url { st with urls := st.urls ++ [url] }).2 with
            collected := setAdd (collectProduct w locale region url { st with urls := st.urls ++ [url] }).2.collected u }
        else (collectProduct w locale region url { st with urls := st.urls ++ [url] }).2
      | none => (collectProduct w locale region url { st with urls := st.urls ++ [url] }).2) ∧
    CollInv (match (collectProduct w locale region url { st with urls := st.urls ++ [url] }).1 with
      | some u => if truthy u then
          { (collectProduct w locale region url { st with urls := st.urls ++ [url] }).2 with
            collected := setAdd (collectProduct w locale region url { st with urls := st.urls ++ [url] }).2.collected u }
        else (collectProduct w locale region url { st with urls := st.urls ++ [url] }).2
      | none => (collectProduct w locale region url { st with urls := st.urls ++ [url] }).2) := by
  obtain ⟨e1, e2, e3, e4⟩ := collectProduct_effects w locale region url { st with urls := st.urls ++ [url] }
  rcases hres : (collectProduct w locale region url { st with urls := st.urls ++ [url] }) with ⟨r1, st2⟩
  rw [hres] at e1 e2 e3 e4
  dsimp only at e1 e2 e3 e4
  cases r1 with
  | none =>
    dsimp only
    constructor
    · intro u
      obtain ⟨a1, a2, a3⟩ := h1 u
      have hf : fetchCount st2.trace u = fetchCount st.trace u + (if url = u then 1 else 0) := by
        rw [e3]
        exact fetchCount_ext _ _ _ _ (by intro e he; cases he)
      have hup : upsertCount st2.trace u = upsertCount st.trace u := by
        rw [e3, upsertCount_ext]
        simp [upsertCount]
      by_cases hequ : url = u
      · subst hequ
        have hzero : fetchCount st.trace url = 0 := by
          by_contra hc
          exact hurl (a3 (Nat.one_le_iff_ne_zero.mpr hc))
        refine ⟨?_, ?_, ?_⟩
        · rw [hf, hzero]
          simp
        · rw [hup, hf]
          omega
        · intro _
          rw [e1]
          simp
      · rw [hf, if_neg hequ]
        refine ⟨by omega, by omega, ?_⟩
        intro hge
        rw [e1]
        simp only [List.mem_append, List.mem_singleton]
        exact Or.inl (a3 (by omega))
    · constructor
      · rw [e2]
        exact h2.1
      · intro u
        rw [e2, e3]
        rw [h2.2 u]
        constructor
        · rintro ⟨url', hmem⟩
          exact ⟨url', by simp [hmem]⟩
        · rintro ⟨url', hmem⟩
          simp only [List.mem_append, List.mem_cons] at hmem
          rcases hmem with hmem | hmem | hmem
          · exact ⟨url', hmem⟩
          · cases hmem
          · cases hmem
  | some u₀ =>
    have htu : truthy u₀ = true := e4 u₀ rfl
    dsimp only
    rw [if_pos htu]
    constructor
    · intro u
      obtain ⟨a1, a2, a3⟩ := h1 u
      have hf : fetchCount st2.trace u = fetchCount st.trace u + (if url = u then 1 else 0) := by
        rw [e3]
        refine fetchCount_ext _ _ _ _ ?_
        intro e he
        simp only [List.mem_singleton] at he
        subst he
        rfl
      have hup : upsertCount st2.trace u
          = upsertCount st.trace u + (if url = u then 1 else 0) := by
        rw [e3, upsertCount_ext, upsertCount_single]
      by_cases hequ : url = u
      · subst hequ
        have hzero : fetchCount st.trace url = 0 := by
          by_contra hc
          exact hurl (a3 (Nat.one_le_iff_ne_zero.mpr hc))
        have hupz : upsertCount st.trace url = 0 := by omega
        refine ⟨?_, ?_, ?_⟩
        · rw [hf, hzero]
          simp
        · rw [hup, hf, hzero, hupz]
        · intro _
          rw [e1]
          simp
      · rw [hf, hup, if_neg hequ]
        refine ⟨by omega, by omega, ?_⟩
        intro hge
        rw [e1]
        simp only [List.mem_append, List.mem_singleton]
        exact Or.inl (a3 (by omega))
    · constructor
      · exact setAdd_nodup (by rw [e2]; exact h2.1)
      · intro u
        rw [mem_setAdd, e2, e3, h2.2 u]
        constructor
        · rintro (⟨url', hmem⟩ | rfl)
          · exact ⟨url', by simp [hmem]⟩
          · exact ⟨url, by simp⟩
        · rintro ⟨url', hmem⟩
          simp only [List.mem_append, List.mem_cons] at hmem
          rcases hmem with hmem | hmem | hmem | hmem
          · exact Or.inl ⟨url', hmem⟩
          · cases hmem
          · injection hmem with hm1 hm2
            exact Or.inr hm2
          · cases hmem


theorem procProducts_inv (w : World) (region locale : String) (limit : Option Int) :
    ∀ (ps : List Json) (st : LoopSt), TraceInv st → CollInv st →
      TraceInv (procProducts w region locale limit ps st) ∧
      CollInv (procProducts w region locale limit ps st) := by
  intro ps
  induction ps with
  | nil =>
    intro st h1 h2
    exact ⟨h1, h2⟩
  | cons pd rest ih =>
    intro st h1 h2
    rw [procProducts]
    by_cases hl : limitHit limit st.collected
    · rw [if_pos hl]
      exact ⟨h1, h2⟩
    · rw [if_neg hl]
      cases hjg : jget pd "url" Json.null with
      | error e => exact ⟨h1, h2⟩
      | ok url =>
        dsimp only
        split
        · exact ih st h1 h2
        · next hcond =>
          have hurl : url ∉ st.urls := by
            simp only [Bool.or_eq_true, decide_eq_true_eq, not_or] at hcond
            exact hcond.2
          exact ih _ (step_inv w locale region h1 h2 hurl).1 (step_inv w locale region h1 h2 hurl).2

theorem procCategory_inv (w : World) (region locale : String) (limit : Option Int)
    (c : Int) (st : LoopSt) (h1 : TraceInv st) (h2 : CollInv st) :
    TraceInv (procCategory w region locale limit c st) ∧
    CollInv (procCategory w region locale limit c st) := by
  unfold procCategory
  split
  · exact ⟨h1, h2⟩
  · exact procProducts_inv w region locale limit _ st h1 h2

theorem runCats_inv (w : World) (region locale : String) (limit : Option Int) :
    ∀ (cats : List Int) (st : LoopSt), TraceInv st → CollInv st →
      TraceInv (runCats w region locale limit cats st) ∧
      CollInv (runCats w region locale limit cats st) := by
  intro cats
  induction cats with
  | nil =>
    intro st h1 h2
    exact ⟨h1, h2⟩
  | cons c rest ih =>
    intro st h1 h2
    rw [runCats]
    by_cases hl : limitHit limit st.collected
    · rw [if_pos hl]
      exact ⟨h1, h2⟩
    · rw [if_neg hl]
      obtain ⟨g1, g2⟩ := procCategory_inv w region locale limit c st h1 h2
      exact ih _ g1 g2

theorem init_traceInv (sess : Sess) :
    TraceInv { urls := [], collected := [], sess := sess, trace := [] } := by
  intro u
  refine ⟨?_, ?_, ?_⟩ <;> simp [fetchCount, upsertCount]

theorem init_collInv (sess : Sess) :
    CollInv { urls := [], collected := [], sess := sess, trace := [] } := by
  refine ⟨List.nodup_nil, ?_⟩
  intro u
  simp


theorem procProducts_coll_le (w : World) (region locale : String) (n : Int) (hn : 0 < n) :
    ∀ (ps : List Json) (st : LoopSt), (st.collected.length : Int) ≤ n →
      ((procProducts w region locale (some n) ps st).collected.length : Int) ≤ n := by
  intro ps
  induction ps with
  | nil =>
    intro st h
    exact h
  | cons pd rest ih =>
    intro st h
    rw [procProducts]
    by_cases hl : limitHit (some n) st.collected
    · rw [if_pos hl]
      exact h
    · rw [if_neg hl]
      have hn0 : ¬ n = 0 := by omega
      simp only [limitHit, if_neg hn0, decide_eq_true_eq, ge_iff_le, not_le] at hl
      cases hjg : jget pd "url" Json.null with
      | error e => exact h
      | ok url =>
        dsimp only
        split
        · exact ih st h
        · apply ih
          obtain ⟨e1, e2, e3, e4⟩ :=
            collectProduct_effects w locale region url { st with urls := st.urls ++ [url] }
          rcases hres : (collectProduct w locale region url { st with urls := st.urls ++ [url] })
            with ⟨r1, st2⟩
          rw [hres] at e1 e2 e3 e4
          dsimp only at e1 e2 e3 e4
          cases r1 with
          | none =>
            dsimp only
            rw [e2]
            omega
          | some u₀ =>
            dsimp only
            by_cases ht : truthy u₀
            · rw [if_pos ht]
              dsimp only
              rw [e2]
              have hle := setAdd_length (s := st.collected) (x := u₀)
              omega
            · rw [if_neg ht]
              rw [e2]
              omega

theorem procCategory_coll_le (w : World) (region locale : String) (n : Int) (hn : 0 < n)
    (c : Int) (st : LoopSt) (h : (st.collected.length : Int) ≤ n) :
    ((procCategory w region locale (some n) c st).collected.length : Int) ≤ n := by
  unfold procCategory
  split
  · exact h
  · exact procProducts_coll_le w region locale n hn _ st h

theorem runCats_coll_le (w : World) (region locale : String) (n : Int) (hn : 0 < n) :
    ∀ (cats : List Int) (st : LoopSt), (st.collected.length : Int) ≤ n →
      ((runCats w region locale (some n) cats st).collected.length : Int) ≤ n := by
  intro cats
  induction cats with
  | nil =>
    intro st h
    exact h
  | cons c rest ih =>
    intro st h
    rw [runCats]
    by_cases hl : limitHit (some n) st.collected
    · rw [if_pos hl]
      exact h
    · rw [if_neg hl]
      exact ih _ (procCategory_coll_le w region locale n hn c st h)

/-- C3: within one run every url is detail-fetched at most once and
upserted at most once — even when it appears in the grid results of
several categories — and every collected uid appears exactly once in the
returned result set. -/
theorem c3_url_dedup (w : World) (region locale : String) (cats : Option (List Int))
    (limit : Option Int) (sess : Sess) (u : Json) :
    fetchCount (collectProducts w region locale cats limit sess).trace u ≤ 1 ∧
    upsertCount (collectProducts w region locale cats limit sess).trace u ≤ 1 ∧
    (u ∈ (collectProducts w region locale cats limit sess).collected →
      List.count u (collectProducts w region locale cats limit sess).collected = 1) := by
  have hinv := runCats_inv w region locale limit (cats.getD defaultCategories)
    { urls := [], collected := [], sess := sess, trace := [] }
    (init_traceInv sess) (init_collInv sess)
  obtain ⟨a1, a2, a3⟩ := hinv.1 u
  refine ⟨a1, le_trans a2 a1, ?_⟩
  intro hmem
  exact List.count_eq_one_of_mem hinv.2.1 hmem

/-- C3 witness: `/x` is listed by both category 1 and category 2; it is
fetched once, upserted once, and its uid `ux` appears exactly once. -/
theorem c3_witness :
    fetchCount outC3.trace (Json.str "/x") ≤ 1 ∧
    upsertCount outC3.trace (Json.str "/x") ≤ 1 ∧
    List.count (Json.str "ux") outC3.collected = 1 :=
  ⟨(c3_url_dedup wC3 "no" "en-us" (some [1, 2]) none sessEmpty (Json.str "/x")).1,
   (c3_url_dedup wC3 "no" "en-us" (some [1, 2]) none sessEmpty (Json.str "/x")).2.1,
   (c3_url_dedup wC3 "no" "en-us" (some [1, 2]) none sessEmpty (Json.str "ux")).2.2 (by decide)⟩

/-- C7: with a positive limit the run never collects more uids than the
limit (the loop stops as soon as the cap is reached, even mid-category),
and the returned set contains exactly the uids of the upserts committed
during the run. -/
theorem c7_limit_and_result (w : World) (region locale : String) (cats : Option (List Int))
    (n : Int) (sess : Sess) (hn : 0 < n) :
    ((collectProducts w region locale cats (some n) sess).collected.length : Int) ≤ n ∧
    ∀ u, u ∈ (collectProducts w region locale cats (some n) sess).collected ↔
      ∃ url, Event.upsert url u ∈ (collectProducts w region locale cats (some n) sess).trace := by
  constructor
  · unfold collectProducts
    apply runCats_coll_le w region locale n hn
    simp
    omega
  · have hinv := runCats_inv w region locale (some n) (cats.getD defaultCategories)
      { urls := [], collected := [], sess := sess, trace := [] }
      (init_traceInv sess) (init_collInv sess)
    exact hinv.2.2

/-- C7 witness: two products in the grid, limit 1 — only one is
collected. -/
theorem c7_witness :
    ((collectProducts wMulti "no" "en-us" (some [1]) (some 1) sessEmpty).collected.length : Int)
      ≤ 1 :=
  (c7_limit_and_result wMulti "no" "en-us" (some [1]) 1 sessEmpty (by decide)).1

theorem limitHit_zero (c : List Json) : limitHit (some 0) c = false := rfl

theorem limitHit_none (c : List Json) : limitHit none c = false := rfl

theorem procProducts_zero (w : World) (region locale : String) :
    ∀ (ps : List Json) (st : LoopSt),
      procProducts w region locale (some 0) ps st = procProducts w region locale none ps st := by
  intro ps
  induction ps with
  | nil => intro st; rfl
  | cons pd rest ih =>
    intro st
    rw [procProducts, procProducts, limitHit_zero, limitHit_none]
    simp only [Bool.false_eq_true, if_false]
    cases hjg : jget pd "url" Json.null with
    | error e => rfl
    | ok url =>
      dsimp only
      split
      · exact ih st
      · exact ih _

theorem procCategory_zero (w : World) (region locale : String) (c : Int) (st : LoopSt) :
    procCategory w region locale (some 0) c st = procCategory w region locale none c st := by
  unfold procCategory
  split
  · rfl
  · exact procProducts_zero w region locale _ st

theorem runCats_zero (w : World) (region locale : String) :
    ∀ (cats : List Int) (st : LoopSt),
      runCats w region locale (some 0) cats st = runCats w region locale none cats st := by
  intro cats
  induction cats with
  | nil => intro st; rfl
  | cons c rest ih =>
    intro st
    rw [runCats, runCats, limitHit_zero, limitHit_none]
    simp only [Bool.false_eq_true, if_false]
    rw [procCategory_zero]
    exact ih _

/-- C9: a limit of 0 is falsy in the guard `if limit and len(...) >=
limit`, so `limit=0` behaves exactly like `limit=None` — the cap is
disabled and the run collects without bound (here: both products, not
zero). -/
theorem c9_zero_limit_disables_cap :
    (∀ (w : World) (region locale : String) (cats : Option (List Int)) (sess : Sess),
      collectProducts w region locale cats (some 0) sess
        = collectProducts w region locale cats none sess) ∧
    outC9.collected = [Json.str "ua", Json.str "ub"] := by
  constructor
  · intro w region locale cats sess
    unfold collectProducts
    exact runCats_zero w region locale _ _
  · decide

end Madshus
